import Mathlib

/-!
Verification of the `consolekit` terminal library against its design
specification.  The Lean definitions below are shallow embeddings of the
Python source in `consolekit/terminal_colours.py`, `consolekit/utils.py`,
`consolekit/input.py`, `consolekit/tracebacks.py` and
`consolekit/commands.py`.  Python machine-level details are modelled as
follows: strings become `String`/`List Char`, Python `int` becomes `Int`
(or `Nat` for counters that never go negative), exceptions become
`Option`/sum results, and the three module-level colour stacks become an
explicit `TermState` record threaded through the operations.
-/

namespace Consolekit

/-! ## ANSI code table (`terminal_colours.py`)

`CSI = "\u001b["`; `code_to_chars(code) = CSI + str(code) + 'm'`. -/

def CSI : String := "\x1b["

def code_to_chars (code : Nat) : String := CSI ++ toString code ++ "m"

/-- The three colour channels.  In the source each is a module-level deque:
`fore_stack`, `back_stack`, `style_stack`. -/
inductive Chan
  | fore
  | back
  | style
deriving DecidableEq

/-- `Colour(style, stack, reset)` from `terminal_colours.py`: attributes
`style` (the escape sequence; the `str` value of the object), `stack`
(a reference to its owning stack, modelled by the `Chan` tag) and `reset`. -/
structure Colour where
  style : String
  chan : Chan
  reset : String
deriving DecidableEq

/-- The module-level mutable state: the three independent colour stacks.
Top of stack (`stack[-1]` in Python, where `append`/`pop` act on the right
end) is the head of the list here. -/
structure TermState where
  fore : List String
  back : List String
  styl : List String
deriving DecidableEq

def getStack : Chan → TermState → List String
  | .fore, st => st.fore
  | .back, st => st.back
  | .style, st => st.styl

def setStack : Chan → List String → TermState → TermState
  | .fore, l, st => ⟨l, st.back, st.styl⟩
  | .back, l, st => ⟨st.fore, l, st.styl⟩
  | .style, l, st => ⟨st.fore, st.back, l⟩

/-- `Colour.__enter__`: `print(self.style, end=''); self.stack.append(self.style)`.
Returns the new stack and the emitted sequence. -/
def stackEnter (style : String) (stack : List String) : List String × String :=
  (style :: stack, style)

/-- `Colour.__exit__`:

```python
if self.style == self.stack[-1]:
    self.stack.pop()
    print(self.stack[-1], end='')
```

Returns `some (newStack, emitted)`;  `none` models the `IndexError` raised by
`stack[-1]` on an empty deque (reading the top of an empty stack, or popping
the last entry and then reading the new top). -/
def stackExit (style : String) (stack : List String) : Option (List String × Option String) :=
  match stack with
  | [] => none
  | top :: rest =>
    if style = top then
      match rest with
      | [] => none
      | newTop :: _ => some (rest, some newTop)
    else some (top :: rest, none)

/-- `Colour.__call__`: `return f"{self}{text}{self.reset}"` — `self` used as a
`str` is the `style` attribute. -/
def colourCall (c : Colour) (text : String) : String := c.style ++ text ++ c.reset

/-- `Colour.__call__` as an operation on the module state: the method body
reads no stack and mutates no stack, so its embedding passes the state
through untouched. -/
def colourCallOp (c : Colour) (text : String) (st : TermState) : String × TermState :=
  (colourCall c text, st)

/-- `__enter__` on the module state: push onto the colour's owning stack. -/
def enterC (c : Colour) (st : TermState) : TermState :=
  setStack c.chan (stackEnter c.style (getStack c.chan st)).1 st

/-- `__exit__` on the module state: conditional pop of the owning stack. -/
def exitC (c : Colour) (st : TermState) : Option TermState :=
  match stackExit c.style (getStack c.chan st) with
  | some r => some (setStack c.chan r.1 st)
  | none => none

/-- Sentinel entries appended at module load:
`fore_stack.append(Fore.RESET)` (code 39), `back_stack.append(Back.RESET)`
(code 49), `style_stack.append(Style.NORMAL)` (code 22). -/
def sentinelSeq : Chan → String
  | .fore => code_to_chars 39
  | .back => code_to_chars 49
  | .style => code_to_chars 22

/-- The state of the three stacks right after module load: each stack holds
exactly its sentinel. -/
def loadState : TermState :=
  ⟨[code_to_chars 39], [code_to_chars 49], [code_to_chars 22]⟩

/-- Balanced (properly nested) sequences of scoped activations, as produced
by Python `with` blocks: every exit is the closing of a matching prior
enter. `scope c t` is `with c: t`. -/
inductive Trace
  | nil
  | seq (a b : Trace)
  | scope (c : Colour) (t : Trace)

/-- Run a balanced trace from a state.  `none` models an uncaught
`IndexError` from `__exit__`. -/
def runT : Trace → TermState → Option TermState
  | .nil, st => some st
  | .seq a b, st => (runT a st).bind (runT b)
  | .scope c t, st => (runT t (enterC c st)).bind (exitC c)

/-- Continue collecting states from an optional state (empty when a run
already failed). -/
def optStates (f : TermState → List TermState) : Option TermState → List TermState
  | some s => f s
  | none => []

/-- Every intermediate state visited while running a trace (including the
initial and final states). -/
def statesT : Trace → TermState → List TermState
  | .nil, st => [st]
  | .seq a b, st => statesT a st ++ optStates (statesT b) (runT a st)
  | .scope c t, st =>
    st :: statesT t (enterC c st) ++
      optStates (fun st1 => optStates (fun st2 => [st2]) (exitC c st1)) (runT t (enterC c st))

theorem optStates_some (f : TermState → List TermState) (s : TermState) :
    optStates f (some s) = f s := rfl

def goodState (st : TermState) : Prop :=
  st.fore ≠ [] ∧ st.back ≠ [] ∧ st.styl ≠ []

theorem goodState_getStack {st : TermState} (h : goodState st) (ch : Chan) :
    getStack ch st ≠ [] := by
  cases ch with
  | fore => exact h.1
  | back => exact h.2.1
  | style => exact h.2.2

theorem goodState_enterC (c : Colour) {st : TermState} (h : goodState st) :
    goodState (enterC c st) := by
  obtain ⟨cs, cc, cr⟩ := c
  obtain ⟨f, b, s⟩ := st
  obtain ⟨h1, h2, h3⟩ := h
  cases cc <;>
    exact ⟨by simp_all [enterC, stackEnter, setStack, getStack],
      by simp_all [enterC, stackEnter, setStack, getStack],
      by simp_all [enterC, stackEnter, setStack, getStack]⟩

theorem exitC_enterC (c : Colour) {st : TermState} (h : goodState st) :
    exitC c (enterC c st) = some st := by
  obtain ⟨cs, cc, cr⟩ := c
  obtain ⟨f, b, s⟩ := st
  obtain ⟨h1, h2, h3⟩ := h
  cases cc with
  | fore =>
    cases f with
    | nil => exact absurd rfl h1
    | cons x xs => simp [exitC, enterC, stackExit, stackEnter, setStack, getStack]
  | back =>
    cases b with
    | nil => exact absurd rfl h2
    | cons x xs => simp [exitC, enterC, stackExit, stackEnter, setStack, getStack]
  | style =>
    cases s with
    | nil => exact absurd rfl h3
    | cons x xs => simp [exitC, enterC, stackExit, stackEnter, setStack, getStack]

theorem runT_restore (t : Trace) : ∀ st : TermState, goodState st → runT t st = some st := by
  induction t with
  | nil => intro st _; rfl
  | seq a b iha ihb =>
    intro st h
    simp only [runT, iha st h, Option.bind_some]
    exact ihb st h
  | scope c t ih =>
    intro st h
    have hg := goodState_enterC c h
    simp only [runT, ih _ hg, Option.bind_some]
    exact exitC_enterC c h

theorem enterC_suffix (c : Colour) (st : TermState) (ch : Chan) :
    getStack ch st <:+ getStack ch (enterC c st) := by
  obtain ⟨cs, cc, cr⟩ := c
  obtain ⟨f, b, s⟩ := st
  cases cc <;> cases ch <;>
    first
      | exact List.suffix_cons _ _
      | exact List.suffix_refl _

theorem statesT_suffix (t : Trace) :
    ∀ (st x : TermState), goodState st → x ∈ statesT t st →
      ∀ ch : Chan, getStack ch st <:+ getStack ch x := by
  induction t with
  | nil =>
    intro st x _ hx ch
    simp only [statesT, List.mem_singleton] at hx
    subst hx
    exact List.suffix_refl _
  | seq a b iha ihb =>
    intro st x h hx ch
    rw [statesT] at hx
    rw [runT_restore a st h] at hx
    rcases List.mem_append.mp hx with hx | hx
    · exact iha st x h hx ch
    · exact ihb st x h hx ch
  | scope c t ih =>
    intro st x h hx ch
    have hg := goodState_enterC c h
    rw [statesT] at hx
    rw [runT_restore t _ hg] at hx
    rw [optStates_some] at hx
    rw [exitC_enterC c h] at hx
    rw [optStates_some] at hx
    rcases List.mem_cons.mp hx with hx | hx
    · subst hx; exact List.suffix_refl _
    rcases List.mem_append.mp hx with hx | hx
    · exact (enterC_suffix c st ch).trans (ih _ x hg hx ch)
    · simp only [List.mem_singleton] at hx
      subst hx
      exact List.suffix_refl _

/-- **C8.** Each of the three stacks is initialised with its sentinel
reset-to-default entry, and under any balanced sequence of scoped
activations and deactivations every intermediate state has a non-empty
stack on every channel whose bottom entry is still the sentinel: the
sentinel is never popped. -/
theorem stacks_sentinel_invariant (t : Trace) (x : TermState)
    (hx : x ∈ statesT t loadState) :
    ∀ ch : Chan, getStack ch x ≠ [] ∧ (getStack ch x).getLast? = some (sentinelSeq ch) := by
  intro ch
  have hgood : goodState loadState := by
    refine ⟨?_, ?_, ?_⟩ <;> simp [loadState]
  have hs := statesT_suffix t loadState x hgood hx ch
  have hinit : getStack ch loadState = [sentinelSeq ch] := by
    cases ch <;> rfl
  rw [hinit] at hs
  obtain ⟨pre, hpre⟩ := hs
  constructor
  · rw [← hpre]; simp
  · rw [← hpre]; simp

/-- `Fore.RED`: `Colour(code_to_chars(31), fore_stack, "\x1b[39m")`. -/
def foreRed : Colour := ⟨code_to_chars 31, Chan.fore, code_to_chars 39⟩

/-- Witness for C8 at a concrete balanced trace (`with Fore.RED: pass`). -/
theorem stacks_sentinel_invariant_witness :
    loadState ∈ statesT (Trace.scope foreRed Trace.nil) loadState ∧
      ∀ ch : Chan, getStack ch loadState ≠ [] ∧
        (getStack ch loadState).getLast? = some (sentinelSeq ch) :=
  ⟨by decide, stacks_sentinel_invariant (Trace.scope foreRed Trace.nil) loadState (by decide)⟩

/-- **C4.** Ending a colour's scope pops the stack and then emits the new top
if and only if the colour's sequence equals the current top; otherwise the
stack is left completely unchanged and nothing is emitted.  Consequently,
after activating `A` then `B` on the same stack, ending `B`'s scope emits
`A`'s sequence (the immediately enclosing colour), not the reset sentinel. -/
theorem stack_exit_pops_iff_top (c top next a b : String) (rest s : List String) :
    (stackExit c (top :: next :: rest)
        = if c = top then some (next :: rest, some next)
          else some (top :: next :: rest, none)) ∧
      stackExit b (stackEnter b (stackEnter a s).1).1 = some (a :: s, some a) := by
  constructor
  · by_cases h : c = top <;> simp [stackExit, h]
  · simp [stackEnter, stackExit]

/-- **C7.** Calling a colour as a function returns exactly
`sequence ++ text ++ reset_sequence` and leaves all three stacks unchanged:
no push, no pop, no emission to any stack. -/
theorem colour_call_pure (c : Colour) (text : String) (st : TermState) :
    colourCallOp c text st = (c.style ++ text ++ c.reset, st) := rfl

/-! ## Colour default resolver (`resolve_color_default`) -/

/-- `resolve_color_default` from `terminal_colours.py`.  Arguments:
`color` — the explicit flag; `ctx` — `click.get_current_context(silent=True)`
(`none` when no context is active) carrying `ctx.color`; `noColor` and
`pycharmHosted` — the values of `int(os.environ.get("NO_COLOR", 0))` and
`int(os.environ.get("PYCHARM_HOSTED", 0))`.

```python
if color is not None: return color
ctx = click.get_current_context(silent=True)
if ctx is not None and ctx.color is not None: return ctx.color
if int(os.environ.get("NO_COLOR", 0)): return False
if int(os.environ.get("PYCHARM_HOSTED", 0)): return True
return None
``` -/
def resolve_color_default (color : Option Bool) (ctx : Option (Option Bool))
    (noColor pycharmHosted : Int) : Option Bool :=
  match color with
  | some c => some c
  | none =>
    match ctx with
    | some (some c) => some c
    | _ =>
      if noColor ≠ 0 then some false
      else if pycharmHosted ≠ 0 then some true
      else none

/-- The resolver as the specification words it: a fixed precedence list,
first match wins — explicit value; then a non-unresolved context
preference; then truthy `NO_COLOR` forces off; then truthy
`PYCHARM_HOSTED` forces on; otherwise unresolved. -/
def resolveColourSpec (explicit : Option Bool) (ctx : Option (Option Bool))
    (noColor pycharmHosted : Int) : Option Bool :=
  if explicit ≠ none then explicit
  else if ctx.getD none ≠ none then ctx.getD none
  else if noColor ≠ 0 then some false
  else if pycharmHosted ≠ 0 then some true
  else none

/-- **C5.** `resolve_color_default` evaluates its rules in the fixed
precedence order of the specification with first match winning; in
particular truthy `NO_COLOR` yields off even when `PYCHARM_HOSTED` is also
truthy, and with nothing set the result is unresolved. -/
theorem resolve_color_default_refines_spec (color : Option Bool)
    (ctx : Option (Option Bool)) (noColor pycharmHosted : Int) :
    resolve_color_default color ctx noColor pycharmHosted
      = resolveColourSpec color ctx noColor pycharmHosted := by
  cases color with
  | some c => simp [resolve_color_default, resolveColourSpec]
  | none =>
    cases ctx with
    | none => simp [resolve_color_default, resolveColourSpec]
    | some oc =>
      cases oc with
      | none => simp [resolve_color_default, resolveColourSpec]
      | some c => simp [resolve_color_default, resolveColourSpec]

/-! ## Markdown terminal renderer: blank-line post-processing (`utils.py`)

`TerminalRenderer.render` is `super().render(token).replace("\n\n\n", "\n\n")`.
Python `str.replace` substitutes non-overlapping occurrences left to right,
resuming the scan immediately after each replacement.  `collapseNL` is that
replacement specialised to the pattern `"\n\n\n"` and replacement `"\n\n"`. -/

def collapseNL : List Char → List Char
  | '\n' :: '\n' :: '\n' :: rest => '\n' :: '\n' :: collapseNL rest
  | c :: rest => c :: collapseNL rest
  | [] => []

/-- The post-processing pass of `TerminalRenderer.render` applied to the
fully rendered string. -/
def renderPost (s : String) : String := ⟨collapseNL s.data⟩

/-- **C1 counterexample.**  A raw emission with three consecutive blank
lines (`"a"` then four newlines then `"b"`): the post-processing pass
returns a string that still has two consecutive blank lines at that
position, not exactly one (which would be `"a\n\nb"`). -/
theorem render_blank_lines_counterexample :
    renderPost "a\n\n\n\nb" = "a\n\n\nb" ∧ renderPost "a\n\n\n\nb" ≠ "a\n\nb" := by
  exact ⟨rfl, by decide⟩

/-- **C1 amended.**  The post-processing pass is a single left-to-right
non-overlapping replacement of `"\n\n\n"` by `"\n\n"`: a run of exactly
three newlines (two consecutive blank lines) collapses to one blank line,
but in general a run of `n` newlines becomes `n - n / 3` newlines, so runs
of three or more blank lines are only partially collapsed. -/
theorem collapseNL_replicate (n : Nat) :
    collapseNL (List.replicate n '\n') = List.replicate (n - n / 3) '\n' := by
  induction n using Nat.strong_induction_on with
  | _ n ih =>
    match n, ih with
    | 0, _ => rfl
    | 1, _ => rfl
    | 2, _ => rfl
    | (m + 3), ih =>
      have h3 : List.replicate (m + 3) '\n' = '\n' :: '\n' :: '\n' :: List.replicate m '\n' := by
        rfl
      rw [h3]
      rw [show collapseNL ('\n' :: '\n' :: '\n' :: List.replicate m '\n')
            = '\n' :: '\n' :: collapseNL (List.replicate m '\n') from rfl]
      rw [ih m (by omega)]
      rw [show (m + 3) - (m + 3) / 3 = (m - m / 3) + 2 from by omega]
      rfl

/-! ## Markdown terminal renderer: emphasis (`utils.py`)

`render_emphasis`:

```python
if int(os.environ.get("PYCHARM_HOSTED", 0)):
    return SANS_SERIF_ITALIC_LETTERS(self.render_inner(token))
return ''.join([code_to_chars(3), self.render_inner(token), code_to_chars(23)])
```

The method reads only the `PYCHARM_HOSTED` environment variable; the
process-ancestry probe `_pycharm_terminal()` is consulted by
`render_strikethrough` but not here.  Both ambient inputs are passed as
parameters (`pycharmHosted` is the parsed integer value of the variable,
`pycharmTerminal` the cached result of the ancestry probe) so that the
dependence of each renderer on each probe can be stated. -/

/-- Modelled from the spec (third-party `domdf_python_tools.words`):
`SANS_SERIF_ITALIC_LETTERS` maps each ASCII letter to the corresponding
Unicode mathematical sans-serif italic letter (`U+1D608` block for
capitals, `U+1D622` block for small letters) and leaves other characters
unchanged. -/
def sansSerifItalicChar (c : Char) : Char :=
  if 'a' ≤ c ∧ c ≤ 'z' then Char.ofNat (0x1D622 + (c.toNat - 'a'.toNat))
  else if 'A' ≤ c ∧ c ≤ 'Z' then Char.ofNat (0x1D608 + (c.toNat - 'A'.toNat))
  else c

def SANS_SERIF_ITALIC_LETTERS (s : String) : String := ⟨s.data.map sansSerifItalicChar⟩

def render_emphasis (pycharmHosted : Int) (pycharmTerminal : Bool) (inner : String) : String :=
  if pycharmHosted ≠ 0 then SANS_SERIF_ITALIC_LETTERS inner
  else code_to_chars 3 ++ inner ++ code_to_chars 23

/-- `''.join(f'{char}̶' for char in inner)`: a combining long stroke
overlay after every character. -/
def addStroke : List Char → List Char
  | [] => []
  | c :: rest => c :: '̶' :: addStroke rest

/-- `render_strikethrough`:

```python
if int(os.environ.get("PYCHARM_HOSTED", 0)) or _pycharm_terminal():
    return self.render_inner(token)
return ''.join([f'{char}̶' for char in self.render_inner(token)])
``` -/
def render_strikethrough (pycharmHosted : Int) (pycharmTerminal : Bool) (inner : String) : String :=
  if pycharmHosted ≠ 0 || pycharmTerminal then inner
  else ⟨addStroke inner.data⟩

/-- **C3 counterexample.**  With the hosted-IDE environment variable unset
(value `0`) but the process-ancestry probe firing, `render_emphasis` still
wraps the inner text in escape codes 3 / 23 instead of substituting the
sans-serif italic transform, so the ancestry probe alone does not trigger
the fallback claimed. -/
theorem render_emphasis_probe_counterexample :
    render_emphasis 0 true "a" = code_to_chars 3 ++ "a" ++ code_to_chars 23 ∧
      render_emphasis 0 true "a" ≠ SANS_SERIF_ITALIC_LETTERS "a" := by
  exact ⟨rfl, by decide⟩

/-- **C3 amended.**  Only the hosted-IDE environment variable controls the
emphasis fallback: the result never depends on the ancestry probe; a truthy
variable substitutes the sans-serif italic transform, and otherwise —
regardless of the probe — the inner render is wrapped in escape code 3 /
escape code 23.  (The ancestry probe is consulted by the strikethrough
renderer, where it alone suffices to suppress the decoration.) -/
theorem render_emphasis_env_only (pycharmHosted : Int) (probeA probeB : Bool) (inner : String) :
    render_emphasis pycharmHosted probeA inner = render_emphasis pycharmHosted probeB inner ∧
      (pycharmHosted ≠ 0 →
        render_emphasis pycharmHosted probeA inner = SANS_SERIF_ITALIC_LETTERS inner) ∧
      (pycharmHosted = 0 →
        render_emphasis pycharmHosted probeA inner
          = code_to_chars 3 ++ inner ++ code_to_chars 23) ∧
      render_strikethrough 0 true inner = inner := by
  refine ⟨rfl, fun h => ?_, fun h => ?_, rfl⟩
  · simp [render_emphasis, h]
  · simp [render_emphasis, h]

/-- Witness for the amended C3 at concrete inputs. -/
theorem render_emphasis_env_only_witness :
    render_emphasis 1 true "ab" = SANS_SERIF_ITALIC_LETTERS "ab" ∧
      render_emphasis 0 true "ab" = code_to_chars 3 ++ "ab" ++ code_to_chars 23 :=
  ⟨(render_emphasis_env_only 1 true false "ab").2.1 (by decide),
    (render_emphasis_env_only 0 true false "ab").2.2.1 rfl⟩

/-! ## `strip_ansi` (`terminal_colours.py`)

```python
_ansi_re = re.compile(r"\033\[[;?0-9]*[a-zA-Z]")
def strip_ansi(value): return _ansi_re.sub('', value)
```

`re.sub` deletes the non-overlapping matches found by a left-to-right scan
that, after a failed match attempt, resumes one character further on.
`stripGo` runs the equivalent character-by-character automaton:
`plain` — outside any candidate match; `sawEsc` — just read `"\033"`;
`sawBracket mids` — read `"\033["` followed by the characters `mids`, all
in the class `[;?0-9]`.  Because no character of `"\033["` or of `[;?0-9]`
is itself `"\033"`, restarting the regex scan one position after a failed
`"\033"` is the same as flushing the pending characters and continuing
with the character that caused the failure (which may begin a new match
only if it is `"\033"`). -/

def escChar : Char := '\x1b'

/-- The combining long stroke overlay `U+0336` used for strikethrough. -/
def combChar : Char := '̶'

/-- The regex character class `[;?0-9]` (`';'` is 59, `'?'` is 63). -/
def isMid (c : Char) : Bool :=
  c.toNat = 59 || c.toNat = 63 || (48 ≤ c.toNat && c.toNat ≤ 57)

/-- The regex character class `[a-zA-Z]`. -/
def isAsciiLetter (c : Char) : Bool :=
  (97 ≤ c.toNat && c.toNat ≤ 122) || (65 ≤ c.toNat && c.toNat ≤ 90)

inductive ReState
  | plain
  | sawEsc
  | sawBracket (mids : List Char)

/-- One automaton step: the characters emitted and the next state. -/
def reStep : ReState → Char → List Char × ReState
  | .plain, c => if c = escChar then ([], .sawEsc) else ([c], .plain)
  | .sawEsc, c =>
    if c = '[' then ([], .sawBracket [])
    else if c = escChar then ([escChar], .sawEsc)
    else ([escChar, c], .plain)
  | .sawBracket mids, c =>
    if isMid c then ([], .sawBracket (mids ++ [c]))
    else if isAsciiLetter c then ([], .plain)
    else if c = escChar then (escChar :: '[' :: mids, .sawEsc)
    else (escChar :: '[' :: mids ++ [c], .plain)

/-- Characters still pending when the input ends. -/
def reFlush : ReState → List Char
  | .plain => []
  | .sawEsc => [escChar]
  | .sawBracket mids => escChar :: '[' :: mids

def stripGo (st : ReState) : List Char → List Char
  | [] => reFlush st
  | c :: rest => (reStep st c).1 ++ stripGo (reStep st c).2 rest

/-- `strip_ansi` from `terminal_colours.py`. -/
def strip_ansi (s : String) : String := ⟨stripGo .plain s.data⟩

/-- `.replace('̶', '')` from `MarkdownHelpMixin.format_help_text`
(`commands.py`): removing every combining long stroke overlay. -/
def removeComb (l : List Char) : List Char := l.filter (· ≠ combChar)

def stripStrikeChar (s : String) : String := ⟨removeComb s.data⟩

/-- A list of characters containing no escape character. -/
def noEsc (l : List Char) : Bool := l.all (· ≠ escChar)

/-- A list of characters containing no combining long stroke overlay. -/
def noComb (l : List Char) : Bool := l.all (· ≠ combChar)

theorem stripGo_cons_plain {c : Char} (h : c ≠ escChar) (rest : List Char) :
    stripGo .plain (c :: rest) = c :: stripGo .plain rest := by
  simp [stripGo, reStep, h]

theorem stripGo_append_noEsc (a : List Char) (rest : List Char) (h : noEsc a = true) :
    stripGo .plain (a ++ rest) = a ++ stripGo .plain rest := by
  induction a with
  | nil => simp
  | cons c cs ih =>
    simp only [noEsc, List.all_cons, Bool.and_eq_true, decide_eq_true_eq] at h
    rw [List.cons_append, stripGo_cons_plain h.1, ih h.2]
    rfl

theorem stripGo_bracket (mids : List Char) (h : mids.all isMid = true) :
    ∀ (acc z : List Char), stripGo (.sawBracket acc) (mids ++ 'm' :: z) = stripGo .plain z := by
  induction mids with
  | nil =>
    intro acc z
    simp [stripGo, reStep, isMid, isAsciiLetter]
  | cons c cs ih =>
    intro acc z
    simp only [List.all_cons, Bool.and_eq_true] at h
    rw [List.cons_append]
    rw [show stripGo (.sawBracket acc) (c :: (cs ++ 'm' :: z))
          = (reStep (.sawBracket acc) c).1 ++ stripGo (reStep (.sawBracket acc) c).2 (cs ++ 'm' :: z)
        from rfl]
    simp only [reStep, h.1, if_pos]
    rw [ih h.2]
    rfl

/-- The CSI escape sequence `ESC [ mids m` as a character list. -/
def csi (mids : List Char) : List Char := escChar :: '[' :: mids ++ ['m']

theorem stripGo_csi (mids : List Char) (h : mids.all isMid = true) (z : List Char) :
    stripGo .plain (csi mids ++ z) = stripGo .plain z := by
  rw [show csi mids ++ z = escChar :: '[' :: (mids ++ 'm' :: z) by simp [csi]]
  rw [show stripGo .plain (escChar :: '[' :: (mids ++ 'm' :: z))
        = stripGo .sawEsc ('[' :: (mids ++ 'm' :: z)) by simp [stripGo, reStep, escChar]]
  rw [show stripGo .sawEsc ('[' :: (mids ++ 'm' :: z))
        = stripGo (.sawBracket []) (mids ++ 'm' :: z) by simp [stripGo, reStep, escChar]]
  exact stripGo_bracket mids h [] z

theorem csi_matches_code_to_chars :
    csi ['1'] = (code_to_chars 1).data ∧ csi ['2', '2'] = (code_to_chars 22).data ∧
      csi ['3'] = (code_to_chars 3).data ∧ csi ['2', '3'] = (code_to_chars 23).data := by
  decide

/-! ## Renderer emissions and the stripping round trip (C6)

`render_inline_code` is `f"{self.render_inner(token)!r}"`; in markdown an
inline-code span contains only raw text, so its content is modelled as a
plain string and Python's `repr` of a `str` is modelled by `pyRepr`:
choose the quote (double quotes only when the text has a single quote and
no double quote), then escape the backslash, the chosen quote, newline,
carriage return and tab, and emit other control characters (below 32, and
127) as `\xHH` hex escapes.  (Characters from 128 up are emitted verbatim;
Python additionally hex-escapes the rare non-printable ones among them,
which none of the hypotheses below allow anyway.) -/

def squote : Char := Char.ofNat 39

def dquote : Char := Char.ofNat 34

def pyQuote (s : List Char) : Char :=
  if s.contains squote && !s.contains dquote then dquote else squote

def hexDig (n : Nat) : Char := if n < 10 then Char.ofNat (48 + n) else Char.ofNat (87 + n)

def pyEscChar (q : Char) (c : Char) : List Char :=
  if c = '\\' || c = q then ['\\', c]
  else if c = '\n' then ['\\', 'n']
  else if c = '\r' then ['\\', 'r']
  else if c = '\t' then ['\\', 't']
  else if c.toNat < 32 || c.toNat = 127 then
    ['\\', 'x', hexDig (c.toNat / 16), hexDig (c.toNat % 16)]
  else [c]

def pyRepr (s : List Char) : List Char :=
  pyQuote s :: (s.map (pyEscChar (pyQuote s))).flatten ++ [pyQuote s]

/-- Renderer outputs built only from the per-node emissions of §4.4:
raw text leaves, strong, emphasis, strikethrough, inline code, paragraph,
line break, and sibling concatenation. -/
inductive MdNode
  | raw (s : String)
  | strong (child : MdNode)
  | emph (child : MdNode)
  | strike (child : MdNode)
  | icode (s : String)
  | par (child : MdNode)
  | brk
  | cat (a b : MdNode)

/-- The renderer emissions on a capability-compatible terminal
(`PYCHARM_HOSTED` unset, ancestry probe negative), per node kind:
strong = `Style.BRIGHT(inner)` (codes 1 / 22), emphasis = codes 3 / 23,
strikethrough = combining stroke after every character, inline code =
`repr`, paragraph = surrounding newlines, line break = a space. -/
def renderC : MdNode → List Char
  | .raw s => s.data
  | .strong c => csi ['1'] ++ renderC c ++ csi ['2', '2']
  | .emph c => csi ['3'] ++ renderC c ++ csi ['2', '3']
  | .strike c => addStroke (renderC c)
  | .icode s => pyRepr s.data
  | .par c => '\n' :: renderC c ++ ['\n']
  | .brk => [' ']
  | .cat a b => renderC a ++ renderC b

/-- The plain inner text of an emission: the same traversal with all ANSI
decoration and the combining strikethrough codepoint removed (inline code
keeps its quote marks — they are literal characters of the §4.4 emission,
not escapes). -/
def plainText : MdNode → List Char
  | .raw s => s.data
  | .strong c => plainText c
  | .emph c => plainText c
  | .strike c => plainText c
  | .icode s => pyRepr s.data
  | .par c => '\n' :: plainText c ++ ['\n']
  | .brk => [' ']
  | .cat a b => plainText a ++ plainText b

/-- The rendered emission after ANSI stripping but before the combining
codepoint is removed. -/
def preStrip : MdNode → List Char
  | .raw s => s.data
  | .strong c => preStrip c
  | .emph c => preStrip c
  | .strike c => addStroke (renderC c)
  | .icode s => pyRepr s.data
  | .par c => '\n' :: preStrip c ++ ['\n']
  | .brk => [' ']
  | .cat a b => preStrip a ++ preStrip b

/-- Text leaves contain no raw escape character and no combining long
stroke overlay of their own. -/
def cleanLeaves : MdNode → Bool
  | .raw s => noEsc s.data && noComb s.data
  | .strong c => cleanLeaves c
  | .emph c => cleanLeaves c
  | .strike c => cleanLeaves c
  | .icode s => noComb s.data
  | .par c => cleanLeaves c
  | .brk => true
  | .cat a b => cleanLeaves a && cleanLeaves b

/-- Every strikethrough node wraps content whose own render is free of
escape sequences (plain text, possibly nested strikethrough or inline
code — but no strong/emphasis decoration). -/
def strikeOk : MdNode → Bool
  | .raw _ => true
  | .strong c => strikeOk c
  | .emph c => strikeOk c
  | .strike c => strikeOk c && noEsc (renderC c)
  | .icode _ => true
  | .par c => strikeOk c
  | .brk => true
  | .cat a b => strikeOk a && strikeOk b

theorem hexDig_ne (n : Nat) (h : n < 16) : hexDig n ≠ escChar ∧ hexDig n ≠ combChar := by
  interval_cases n <;> exact ⟨by decide, by decide⟩

theorem pyQuote_ne (s : List Char) : pyQuote s ≠ escChar ∧ pyQuote s ≠ combChar := by
  unfold pyQuote
  split
  · exact ⟨by decide, by decide⟩
  · exact ⟨by decide, by decide⟩

theorem pyEscChar_noEsc (q c : Char) (hq : q ≠ escChar) :
    (pyEscChar q c).all (· ≠ escChar) = true := by
  unfold pyEscChar
  split
  next h1 =>
    simp only [Bool.or_eq_true, decide_eq_true_eq] at h1
    simp only [List.all_cons, List.all_nil, Bool.and_true, Bool.and_eq_true, decide_eq_true_eq]
    refine ⟨by decide, ?_⟩
    rcases h1 with rfl | rfl
    · decide
    · exact hq
  next h1 =>
    split
    next => decide
    next =>
      split
      next => decide
      next =>
        split
        next => decide
        next =>
          split
          next h5 =>
            simp only [Bool.or_eq_true, decide_eq_true_eq] at h5
            have hlt : c.toNat / 16 < 16 := by omega
            have hd1 := (hexDig_ne (c.toNat / 16) hlt).1
            have hd2 := (hexDig_ne (c.toNat % 16) (Nat.mod_lt c.toNat (by omega))).1
            simp only [List.all_cons, List.all_nil, Bool.and_true, Bool.and_eq_true,
              decide_eq_true_eq]
            exact ⟨by decide, by decide, hd1, hd2⟩
          next h5 =>
            simp only [Bool.or_eq_true, decide_eq_true_eq, not_or, not_lt] at h5
            simp only [List.all_cons, List.all_nil, Bool.and_true, decide_eq_true_eq]
            intro hc
            subst hc
            exact absurd h5.1 (by decide)

theorem pyEscChar_noComb (q c : Char) (hq : q ≠ combChar) (hc : c ≠ combChar) :
    (pyEscChar q c).all (· ≠ combChar) = true := by
  unfold pyEscChar
  split
  next h1 =>
    simp only [Bool.or_eq_true, decide_eq_true_eq] at h1
    simp only [List.all_cons, List.all_nil, Bool.and_true, Bool.and_eq_true, decide_eq_true_eq]
    refine ⟨by decide, ?_⟩
    rcases h1 with rfl | rfl
    · decide
    · exact hq
  next h1 =>
    split
    next => decide
    next =>
      split
      next => decide
      next =>
        split
        next => decide
        next =>
          split
          next h5 =>
            simp only [Bool.or_eq_true, decide_eq_true_eq] at h5
            have hlt : c.toNat / 16 < 16 := by omega
            have hd1 := (hexDig_ne (c.toNat / 16) hlt).2
            have hd2 := (hexDig_ne (c.toNat % 16) (Nat.mod_lt c.toNat (by omega))).2
            simp only [List.all_cons, List.all_nil, Bool.and_true, Bool.and_eq_true,
              decide_eq_true_eq]
            exact ⟨by decide, by decide, hd1, hd2⟩
          next h5 =>
            simp only [List.all_cons, List.all_nil, Bool.and_true, decide_eq_true_eq]
            exact hc

theorem pyRepr_noEsc (s : List Char) : noEsc (pyRepr s) = true := by
  have hq := (pyQuote_ne s).1
  simp only [noEsc, pyRepr, List.all_cons, List.all_append, List.all_nil, Bool.and_eq_true,
    Bool.and_true, decide_eq_true_eq]
  refine ⟨⟨hq, ?_⟩, hq⟩
  rw [List.all_eq_true]
  intro x hx
  rw [List.mem_flatten] at hx
  obtain ⟨l, hl, hxl⟩ := hx
  rw [List.mem_map] at hl
  obtain ⟨c, _, rfl⟩ := hl
  have hall := pyEscChar_noEsc (pyQuote s) c hq
  rw [List.all_eq_true] at hall
  exact hall x hxl

theorem pyRepr_noComb (s : List Char) (hs : noComb s = true) : noComb (pyRepr s) = true := by
  have hq := (pyQuote_ne s).2
  simp only [noComb, pyRepr, List.all_cons, List.all_append, List.all_nil, Bool.and_eq_true,
    Bool.and_true, decide_eq_true_eq]
  refine ⟨⟨hq, ?_⟩, hq⟩
  rw [List.all_eq_true]
  intro x hx
  rw [List.mem_flatten] at hx
  obtain ⟨l, hl, hxl⟩ := hx
  rw [List.mem_map] at hl
  obtain ⟨c, hcs, rfl⟩ := hl
  rw [noComb, List.all_eq_true] at hs
  have hall := pyEscChar_noComb (pyQuote s) c hq (by simpa using hs c hcs)
  rw [List.all_eq_true] at hall
  exact hall x hxl

theorem noEsc_append (a b : List Char) : noEsc (a ++ b) = (noEsc a && noEsc b) := by
  simp [noEsc, List.all_append]

theorem noEsc_addStroke (l : List Char) : noEsc (addStroke l) = noEsc l := by
  induction l with
  | nil => rfl
  | cons c r ih =>
    show noEsc (c :: combChar :: addStroke r) = noEsc (c :: r)
    simp only [noEsc, List.all_cons] at ih ⊢
    rw [ih, show (decide (combChar ≠ escChar)) = true by decide, Bool.true_and]

theorem removeComb_append (a b : List Char) :
    removeComb (a ++ b) = removeComb a ++ removeComb b := by
  simp [removeComb, List.filter_append]

theorem removeComb_addStroke (l : List Char) : removeComb (addStroke l) = removeComb l := by
  induction l with
  | nil => rfl
  | cons c r ih =>
    show removeComb (c :: combChar :: addStroke r) = removeComb (c :: r)
    simp only [removeComb, List.filter_cons] at ih ⊢
    rw [show (decide (combChar ≠ combChar)) = false by decide]
    simp only [Bool.false_eq_true, if_false]
    rw [ih]

theorem removeComb_noComb {l : List Char} (h : noComb l = true) : removeComb l = l := by
  rw [removeComb, List.filter_eq_self]
  rw [noComb, List.all_eq_true] at h
  exact h

/-- An escape-free subtree renders without any ANSI decoration: removing
the combining codepoint from its render recovers its plain text. -/
theorem removeComb_renderC {t : MdNode} (hclean : cleanLeaves t = true)
    (hesc : noEsc (renderC t) = true) : removeComb (renderC t) = plainText t := by
  induction t with
  | raw s =>
    simp only [cleanLeaves, Bool.and_eq_true] at hclean
    exact removeComb_noComb hclean.2
  | strong c ih =>
    exfalso
    rw [renderC, noEsc_append, noEsc_append] at hesc
    have : noEsc (csi ['1']) = false := by decide
    simp [this] at hesc
  | emph c ih =>
    exfalso
    rw [renderC, noEsc_append, noEsc_append] at hesc
    have : noEsc (csi ['3']) = false := by decide
    simp [this] at hesc
  | strike c ih =>
    rw [renderC, noEsc_addStroke] at hesc
    rw [renderC, plainText, removeComb_addStroke]
    exact ih hclean hesc
  | icode s =>
    rw [cleanLeaves] at hclean
    rw [renderC, plainText]
    exact removeComb_noComb (pyRepr_noComb s.data hclean)
  | par c ih =>
    rw [renderC] at hesc
    rw [show ('\n' :: renderC c ++ ['\n']) = ['\n'] ++ renderC c ++ ['\n'] from rfl,
      noEsc_append, noEsc_append] at hesc
    simp only [Bool.and_eq_true] at hesc
    rw [renderC, plainText,
      show ('\n' :: renderC c ++ ['\n']) = ['\n'] ++ renderC c ++ ['\n'] from rfl,
      removeComb_append, removeComb_append]
    rw [ih hclean hesc.1.2]
    rfl
  | brk => rfl
  | cat a b iha ihb =>
    rw [cleanLeaves, Bool.and_eq_true] at hclean
    rw [renderC, noEsc_append, Bool.and_eq_true] at hesc
    rw [renderC, plainText, removeComb_append, iha hclean.1 hesc.1, ihb hclean.2 hesc.2]

/-- ANSI stripping over an emission, with an arbitrary continuation: the
decorations of strong and emphasis are removed and everything else is
kept. -/
theorem stripGo_renderC (t : MdNode) :
    ∀ rest : List Char, cleanLeaves t = true → strikeOk t = true →
      stripGo .plain (renderC t ++ rest) = preStrip t ++ stripGo .plain rest := by
  induction t with
  | raw s =>
    intro rest hclean _
    rw [cleanLeaves, Bool.and_eq_true] at hclean
    exact stripGo_append_noEsc s.data rest hclean.1
  | strong c ih =>
    intro rest hclean hsafe
    rw [renderC, preStrip]
    rw [List.append_assoc, List.append_assoc]
    rw [stripGo_csi ['1'] (by decide)]
    rw [ih (csi ['2', '2'] ++ rest) hclean hsafe]
    rw [stripGo_csi ['2', '2'] (by decide)]
  | emph c ih =>
    intro rest hclean hsafe
    rw [renderC, preStrip]
    rw [List.append_assoc, List.append_assoc]
    rw [stripGo_csi ['3'] (by decide)]
    rw [ih (csi ['2', '3'] ++ rest) hclean hsafe]
    rw [stripGo_csi ['2', '3'] (by decide)]
  | strike c ih =>
    intro rest _ hsafe
    rw [strikeOk, Bool.and_eq_true] at hsafe
    rw [renderC, preStrip]
    exact stripGo_append_noEsc _ rest (by rw [noEsc_addStroke]; exact hsafe.2)
  | icode s =>
    intro rest _ _
    rw [renderC, preStrip]
    exact stripGo_append_noEsc _ rest (pyRepr_noEsc s.data)
  | par c ih =>
    intro rest hclean hsafe
    rw [renderC, preStrip]
    rw [show ('\n' :: renderC c ++ ['\n']) ++ rest = '\n' :: (renderC c ++ ('\n' :: rest)) by
      simp]
    rw [stripGo_cons_plain (by decide)]
    rw [ih ('\n' :: rest) hclean hsafe]
    rw [stripGo_cons_plain (by decide)]
    simp
  | brk =>
    intro rest _ _
    rw [renderC, preStrip]
    rw [show [' '] ++ rest = ' ' :: rest from rfl]
    rw [stripGo_cons_plain (by decide)]
    rfl
  | cat a b iha ihb =>
    intro rest hclean hsafe
    rw [cleanLeaves, Bool.and_eq_true] at hclean
    rw [strikeOk, Bool.and_eq_true] at hsafe
    rw [renderC, preStrip, List.append_assoc]
    rw [iha (renderC b ++ rest) hclean.1 hsafe.1]
    rw [ihb rest hclean.2 hsafe.2]
    rw [List.append_assoc]

theorem removeComb_preStrip (t : MdNode) (hclean : cleanLeaves t = true)
    (hsafe : strikeOk t = true) : removeComb (preStrip t) = plainText t := by
  induction t with
  | raw s =>
    rw [cleanLeaves, Bool.and_eq_true] at hclean
    exact removeComb_noComb hclean.2
  | strong c ih => exact ih hclean hsafe
  | emph c ih => exact ih hclean hsafe
  | strike c ih =>
    rw [strikeOk, Bool.and_eq_true] at hsafe
    rw [preStrip, plainText, removeComb_addStroke]
    exact removeComb_renderC hclean hsafe.2
  | icode s =>
    rw [cleanLeaves] at hclean
    exact removeComb_noComb (pyRepr_noComb s.data hclean)
  | par c ih =>
    rw [preStrip, plainText,
      show ('\n' :: preStrip c ++ ['\n']) = ['\n'] ++ preStrip c ++ ['\n'] from rfl,
      removeComb_append, removeComb_append, ih hclean hsafe]
    rfl
  | brk => rfl
  | cat a b iha ihb =>
    rw [cleanLeaves, Bool.and_eq_true] at hclean
    rw [strikeOk, Bool.and_eq_true] at hsafe
    rw [preStrip, plainText, removeComb_append, iha hclean.1 hsafe.1, ihb hclean.2 hsafe.2]

theorem noEsc_plainText (t : MdNode) (hclean : cleanLeaves t = true) :
    noEsc (plainText t) = true := by
  induction t with
  | raw s =>
    rw [cleanLeaves, Bool.and_eq_true] at hclean
    exact hclean.1
  | strong c ih => exact ih hclean
  | emph c ih => exact ih hclean
  | strike c ih => exact ih hclean
  | icode s => exact pyRepr_noEsc s.data
  | par c ih =>
    rw [plainText, show ('\n' :: plainText c ++ ['\n']) = ['\n'] ++ plainText c ++ ['\n'] from
      rfl, noEsc_append, noEsc_append, ih hclean]
    decide
  | brk => rfl
  | cat a b iha ihb =>
    rw [cleanLeaves, Bool.and_eq_true] at hclean
    rw [plainText, noEsc_append, iha hclean.1, ihb hclean.2]
    rfl

/-- The §4.4 renderer output with nested decoration inside strikethrough:
`~~**ab**~~`. -/
def nestedStrike : MdNode := MdNode.strike (MdNode.strong (MdNode.raw "ab"))

/-- **C6 counterexample.**  For the §4.4 emission of strikethrough around
strong text, the combining codepoints are interleaved into the inner escape
sequences, the ANSI-stripping pass (which runs first) therefore matches
nothing, and the post-processed output is the intact escape-decorated
string — not the plain inner text, and with escape characters remaining. -/
theorem strip_roundtrip_counterexample :
    stripStrikeChar (strip_ansi ⟨renderC nestedStrike⟩) ≠ ⟨plainText nestedStrike⟩ ∧
      noEsc (stripStrikeChar (strip_ansi ⟨renderC nestedStrike⟩)).data = false := by
  exact ⟨by decide, by decide⟩

/-- **C6 amended.**  For renderer output built only from the per-node
emissions of §4.4 on a capability-compatible terminal, *provided every
strikethrough node wraps escape-free content* (no strong/emphasis
decoration inside strikethrough), applying the ANSI-stripping pass and then
removing the combining long stroke overlay yields the plain inner text,
with no escape characters remaining.  (The counterexample shows the
proviso is necessary: strikethrough interleaves the combining codepoint
into nested escape sequences and the generic regex then fails to match
them.) -/
theorem strip_roundtrip (t : MdNode) (hclean : cleanLeaves t = true)
    (hsafe : strikeOk t = true) :
    stripStrikeChar (strip_ansi ⟨renderC t⟩) = ⟨plainText t⟩ ∧
      noEsc (plainText t) = true := by
  constructor
  · show String.mk (removeComb (stripGo .plain (renderC t))) = String.mk (plainText t)
    have h1 := stripGo_renderC t [] hclean hsafe
    rw [List.append_nil] at h1
    rw [h1]
    rw [show stripGo .plain [] = [] from rfl, List.append_nil]
    rw [removeComb_preStrip t hclean hsafe]
  · exact noEsc_plainText t hclean

/-- Witness for the amended C6: a document mixing strong, emphasis,
plain-text strikethrough and inline code. -/
theorem strip_roundtrip_witness :
    cleanLeaves (MdNode.cat (MdNode.strong (MdNode.raw "A"))
        (MdNode.cat (MdNode.emph (MdNode.raw "b"))
          (MdNode.cat (MdNode.strike (MdNode.raw "c")) (MdNode.icode "d")))) = true ∧
      strikeOk (MdNode.cat (MdNode.strong (MdNode.raw "A"))
        (MdNode.cat (MdNode.emph (MdNode.raw "b"))
          (MdNode.cat (MdNode.strike (MdNode.raw "c")) (MdNode.icode "d")))) = true ∧
      (stripStrikeChar (strip_ansi ⟨renderC (MdNode.cat (MdNode.strong (MdNode.raw "A"))
          (MdNode.cat (MdNode.emph (MdNode.raw "b"))
            (MdNode.cat (MdNode.strike (MdNode.raw "c")) (MdNode.icode "d"))))⟩)
          = ⟨plainText (MdNode.cat (MdNode.strong (MdNode.raw "A"))
            (MdNode.cat (MdNode.emph (MdNode.raw "b"))
              (MdNode.cat (MdNode.strike (MdNode.raw "c")) (MdNode.icode "d"))))⟩ ∧
        noEsc (plainText (MdNode.cat (MdNode.strong (MdNode.raw "A"))
          (MdNode.cat (MdNode.emph (MdNode.raw "b"))
            (MdNode.cat (MdNode.strike (MdNode.raw "c")) (MdNode.icode "d"))))) = true) :=
  ⟨by decide, by decide,
    strip_roundtrip (MdNode.cat (MdNode.strong (MdNode.raw "A"))
      (MdNode.cat (MdNode.emph (MdNode.raw "b"))
        (MdNode.cat (MdNode.strike (MdNode.raw "c")) (MdNode.icode "d"))))
      (by decide) (by decide)⟩

/-! ## `choice` list mode (`input.py`)

For a list of options the prompt's validator is

```python
type_ = click.IntRange(start_index, len(options) + 1 - start_index)
```

(`click.IntRange(lo, hi)` accepts exactly the integers of the closed
interval `[lo, hi]`), while the displayed indices are

```python
for idx, descripton in enumerate(options):
    idx += start_index
    click.echo(f" [{idx}] {descripton}")
```

i.e. `start_index .. start_index + len(options) - 1`, and the accepted
value is returned as `selection - start_index`. -/

/-- The set of entered integers `choice` accepts in list mode, from the
source: `start_index ≤ value ≤ len(options) + 1 - start_index`. -/
def choiceAccepts (numOptions startIndex value : Int) : Bool :=
  startIndex ≤ value && value ≤ numOptions + 1 - startIndex

/-- The acceptance interval the specification states:
`[start_index, start_index + len(options) - 1]` (the displayed indices). -/
def choiceSpecAccepts (numOptions startIndex value : Int) : Bool :=
  startIndex ≤ value && value ≤ startIndex + numOptions - 1

/-- `return selection - start_index`. -/
def choiceReturn (startIndex value : Int) : Int := value - startIndex

/-- **C2.**  With three options and the default `start_index = 0` the code
accepts the entered integers `3` and `4`, although only `0`, `1`, `2` are
displayed and in the specified range; the accepted `3` is returned as
offset `3`, one past the last option.  The code's bound
`len(options) + 1 - start_index` coincides with the specified bound
`start_index + len(options) - 1` exactly when `start_index = 1` — the only
value exercised by the repository's test suite. -/
theorem choice_range_bug :
    choiceAccepts 3 0 3 = true ∧ choiceSpecAccepts 3 0 3 = false ∧
      choiceAccepts 3 0 4 = true ∧ choiceReturn 0 3 = 3 ∧
      (∀ n x : Int, choiceAccepts n 1 x = choiceSpecAccepts n 1 x) := by
  refine ⟨by decide, by decide, by decide, by decide, fun n x => ?_⟩
  simp only [choiceAccepts, choiceSpecAccepts]
  have h : n + 1 - 1 = 1 + n - 1 := by omega
  rw [h]

/-! ## Traceback handler dispatch (`tracebacks.py`)

`TracebackHandler.handle`:

```python
exception_name = e.__class__.__name__
if hasattr(self, f"handle_{exception_name}"):
    return getattr(self, f"handle_{exception_name}")(e)
for base in e.__class__.__mro__:
    if hasattr(self, f"handle_{base.__name__}"):
        return getattr(self, f"handle_{base.__name__}")(e)
self.abort(f"An error occurred: {e}")
```

The base class defines `handle_EOFError`, `handle_KeyboardInterrupt`,
`handle_ClickException`, `handle_Abort`, `handle_SystemExit` (each
`raise e`), and `handle_FileNotFoundError` / `handle_FileExistsError`
(each `self.abort(message)`).  An exception is modelled by its class
name, its class's method-resolution order (a list of class names starting
with the class itself), and its message. -/

structure PyExc where
  name : String
  mro : List String
  msg : String

inductive HandleResult
  | reraise
  | abort (msg : String)
deriving DecidableEq

/-- The `handle_{...}` methods defined on the base `TracebackHandler`. -/
def handlerNames : List String :=
  ["EOFError", "KeyboardInterrupt", "ClickException", "Abort", "SystemExit",
    "FileNotFoundError", "FileExistsError"]

/-- The behaviour of the named `handle_{...}` method. -/
def runHandler (nm : String) (e : PyExc) : HandleResult :=
  if nm = "FileNotFoundError" then .abort ("File Not Found: " ++ e.msg)
  else if nm = "FileExistsError" then .abort ("File Exists: " ++ e.msg)
  else .reraise

/-- `TracebackHandler.handle`. -/
def handle (e : PyExc) : HandleResult :=
  if handlerNames.contains e.name then runHandler e.name e
  else
    match e.mro.find? (fun nm => handlerNames.contains nm) with
    | some nm => runHandler nm e
    | none => .abort ("An error occurred: " ++ e.msg)

/-- Dispatch as the specification words it: the exact class name first,
then the nearest handled ancestor in method-resolution order, else the
generic handler. -/
def handleSpec (e : PyExc) : HandleResult :=
  match (e.name :: e.mro).find? (fun nm => handlerNames.contains nm) with
  | some nm => runHandler nm e
  | none => .abort ("An error occurred: " ++ e.msg)

/-- **C9.**  The handler dispatches by exact class name first, then walks
the method-resolution order for the nearest handled ancestor, and
otherwise falls back to the generic `"An error occurred: {message}"`
handler; whenever the dispatch resolves to one of the ignored-by-design
kinds — end-of-input, keyboard interrupt, the click exception, the clean
abort, or process exit — the exception is re-raised unchanged, never
translated. -/
theorem traceback_dispatch (e : PyExc) :
    handle e = handleSpec e ∧
      ∀ nm : String,
        nm ∈ ["EOFError", "KeyboardInterrupt", "ClickException", "Abort", "SystemExit"] →
        (e.name :: e.mro).find? (fun s => handlerNames.contains s) = some nm →
        handle e = HandleResult.reraise := by
  have hmain : handle e = handleSpec e := by
    rw [handle, handleSpec, List.find?_cons]
    by_cases hm : e.name ∈ handlerNames
    · simp [hm]
    · simp [hm]
  refine ⟨hmain, fun nm hnm hfind => ?_⟩
  rw [hmain, handleSpec, hfind]
  simp only [List.mem_cons, List.mem_singleton, List.not_mem_nil, or_false] at hnm
  rcases hnm with rfl | rfl | rfl | rfl | rfl <;> rfl

/-- A user-defined subclass of `EOFError`:
`class MyEOF(EOFError)` with MRO `MyEOF → EOFError → Exception →
BaseException → object`. -/
def myEOFSub : PyExc :=
  ⟨"MyEOF", ["MyEOF", "EOFError", "Exception", "BaseException", "object"], "m"⟩

/-- Witness for C9: the `EOFError` subclass dispatches through its
ancestry to `handle_EOFError` and is re-raised unchanged. -/
theorem traceback_dispatch_witness :
    handle myEOFSub = HandleResult.reraise ∧ handle myEOFSub = handleSpec myEOFSub :=
  ⟨(traceback_dispatch myEOFSub).2 "EOFError" (by decide) (by decide),
    (traceback_dispatch myEOFSub).1⟩

/-! ## Markdown list rendering state (`utils.py`)

```python
_in_ordered_list: bool = False
_ol_number: int = 0

def render_list(self, token):
    self._in_ordered_list = token.start is not None
    if self._in_ordered_list:
        self._ol_number = 0
    return self.render_inner(token) + '\n'

def render_list_item(self, token):
    if self._in_ordered_list:
        self._ol_number += 1
        return f" {self._ol_number}. {self.render_inner(token).lstrip()}"
    else:
        return f" * {self.render_inner(token).lstrip()}"
```

`render_inner` concatenates the renders of the children in order, threading
the two mutable attributes.  The f-string reads `self._ol_number` before
`render_inner` runs (left-to-right evaluation), so a nested list inside an
item does not change the item's own number, but the mutated flag and
counter persist after the nested list ends. -/

/-- The renderer's carried state: `_in_ordered_list` and `_ol_number`. -/
structure RState where
  inOrderedList : Bool
  olNumber : Nat
deriving DecidableEq

/-- Python `str.lstrip()` (whitespace characters of the ASCII range). -/
def isPySpace (c : Char) : Bool :=
  c = ' ' || c = '\t' || c = '\n' || c = '\r' || c.toNat = 11 || c.toNat = 12

def lstrip (s : String) : String := ⟨s.data.dropWhile isPySpace⟩

mutual

/-- Block-level nodes relevant to list rendering: raw text, a paragraph
(`render_paragraph` wraps in newlines), and a list with its `start`
attribute (`none` for unordered lists). -/
inductive MdBlock
  | btext (s : String)
  | bpar (s : String)
  | blist (start : Option Int) (items : MdItems)

inductive MdItem
  | item (children : MdBlocks)

inductive MdItems
  | inil
  | icons (i : MdItem) (rest : MdItems)

inductive MdBlocks
  | bnil
  | bcons (b : MdBlock) (rest : MdBlocks)

end

mutual

def renderBlock : RState → MdBlock → RState × String
  | st, .btext s => (st, s)
  | st, .bpar s => (st, "\n" ++ s ++ "\n")
  | st, .blist start items =>
    let st1 : RState := ⟨start.isSome, if start.isSome then 0 else st.olNumber⟩
    let r := renderItems st1 items
    (r.1, r.2 ++ "\n")

def renderItem : RState → MdItem → RState × String
  | st, .item children =>
    if st.inOrderedList then
      let st1 : RState := ⟨st.inOrderedList, st.olNumber + 1⟩
      let r := renderBlocks st1 children
      (r.1, " " ++ toString st1.olNumber ++ ". " ++ lstrip r.2)
    else
      let r := renderBlocks st children
      (r.1, " * " ++ lstrip r.2)

def renderItems : RState → MdItems → RState × String
  | st, .inil => (st, "")
  | st, .icons i rest =>
    let r1 := renderItem st i
    let r2 := renderItems r1.1 rest
    (r2.1, r1.2 ++ r2.2)

def renderBlocks : RState → MdBlocks → RState × String
  | st, .bnil => (st, "")
  | st, .bcons b rest =>
    let r1 := renderBlock st b
    let r2 := renderBlocks r1.1 rest
    (r2.1, r1.2 ++ r2.2)

end

def noListBlock : MdBlock → Bool
  | .btext _ => true
  | .bpar _ => true
  | .blist _ _ => false

def simpleBlocks : MdBlocks → Bool
  | .bnil => true
  | .bcons b rest => noListBlock b && simpleBlocks rest

def simpleItem : MdItem → Bool
  | .item cs => simpleBlocks cs

def simpleItems : MdItems → Bool
  | .inil => true
  | .icons i rest => simpleItem i && simpleItems rest

/-- Output of list-free block children (state-independent). -/
def plainBlocks : MdBlocks → String
  | .bnil => ""
  | .bcons (.btext s) rest => s ++ plainBlocks rest
  | .bcons (.bpar s) rest => ("\n" ++ s ++ "\n") ++ plainBlocks rest
  | .bcons (.blist _ _) rest => plainBlocks rest

def itemsCount : MdItems → Nat
  | .inil => 0
  | .icons _ rest => itemsCount rest + 1

/-- The numbered rendering of a run of simple items when the ordered-list
flag is set and the counter currently reads `n`: prefixes
`" {n+1}. "`, `" {n+2}. "`, … — never `" * "`. -/
def numberedFrom (n : Nat) : MdItems → String
  | .inil => ""
  | .icons (.item cs) rest =>
    (" " ++ toString (n + 1) ++ ". " ++ lstrip (plainBlocks cs)) ++ numberedFrom (n + 1) rest

theorem renderBlocks_simple :
    ∀ (cs : MdBlocks) (st : RState), simpleBlocks cs = true →
      renderBlocks st cs = (st, plainBlocks cs)
  | .bnil, st, _ => rfl
  | .bcons (.btext s) rest, st, h => by
    rw [simpleBlocks, Bool.and_eq_true] at h
    rw [renderBlocks, renderBlock]
    rw [renderBlocks_simple rest st h.2]
    rfl
  | .bcons (.bpar s) rest, st, h => by
    rw [simpleBlocks, Bool.and_eq_true] at h
    rw [renderBlocks, renderBlock]
    rw [renderBlocks_simple rest st h.2]
    rfl
  | .bcons (.blist start items) rest, st, h => by
    rw [simpleBlocks, Bool.and_eq_true] at h
    exact absurd h.1 (by rw [noListBlock]; decide)

theorem renderItems_ordered :
    ∀ (items : MdItems) (st : RState), st.inOrderedList = true → simpleItems items = true →
      renderItems st items
        = (⟨true, st.olNumber + itemsCount items⟩, numberedFrom st.olNumber items)
  | .inil, st, hord, _ => by
    rw [renderItems, itemsCount, numberedFrom]
    rw [← hord]
    rfl
  | .icons (.item cs) rest, st, hord, h => by
    rw [simpleItems, Bool.and_eq_true] at h
    rw [simpleItem] at h
    rw [renderItems, renderItem, hord, if_pos rfl]
    simp only [renderBlocks_simple cs ⟨true, st.olNumber + 1⟩ h.1,
      renderItems_ordered rest ⟨true, st.olNumber + 1⟩ rfl h.2, numberedFrom, itemsCount]
    rw [show st.olNumber + (itemsCount rest + 1) = st.olNumber + 1 + itemsCount rest from by
      omega]

/-- **C10.**  Rendering a list node sets the ordered-list flag from that
node's `start` attribute and never restores the enclosing list's value.
For an unordered outer list whose first item contains a nested ordered
list (of simple items) and whose remaining items are simple, the first
item gets the `" * "` marker but every subsequent item of the outer list
is rendered through `numberedFrom` — a numeric `" {counter}. "` marker
continuing the inner list's counter — and the final state still has the
ordered-list flag set. -/
theorem nested_list_flag_leak (st : RState) (k : Int) (inner rest : MdItems)
    (hinner : simpleItems inner = true) (hrest : simpleItems rest = true) :
    renderBlock st
        (MdBlock.blist none
          (MdItems.icons (MdItem.item (MdBlocks.bcons (MdBlock.blist (some k) inner)
            MdBlocks.bnil)) rest))
      = (⟨true, itemsCount inner + itemsCount rest⟩,
          ((" * " ++ lstrip ((numberedFrom 0 inner ++ "\n") ++ "")) ++
            numberedFrom (itemsCount inner) rest) ++ "\n") := by
  rw [renderBlock]
  rw [show (⟨(none : Option Int).isSome,
        if (none : Option Int).isSome then 0 else st.olNumber⟩ : RState)
      = ⟨false, st.olNumber⟩ from rfl]
  rw [renderItems]
  rw [renderItem]
  rw [show (⟨false, st.olNumber⟩ : RState).inOrderedList = false from rfl]
  rw [if_neg (by simp)]
  rw [renderBlocks, renderBlock]
  rw [show (⟨(some k).isSome, if (some k).isSome then 0
        else (⟨false, st.olNumber⟩ : RState).olNumber⟩ : RState) = ⟨true, 0⟩ from rfl]
  rw [renderItems_ordered inner ⟨true, 0⟩ rfl hinner]
  rw [renderBlocks]
  rw [renderItems_ordered rest ⟨true, 0 + itemsCount inner⟩ rfl hrest]
  simp only [Nat.zero_add]

/-- Witness for C10 at a concrete document: an unordered list whose first
item holds a two-item nested ordered list, followed by one more outer
item — the outer second item is rendered as `" 3. "`, not `" * "`. -/
theorem nested_list_flag_leak_witness :
    simpleItems (MdItems.icons (MdItem.item (MdBlocks.bcons (MdBlock.btext "x")
        MdBlocks.bnil)) (MdItems.icons (MdItem.item (MdBlocks.bcons (MdBlock.btext "y")
        MdBlocks.bnil)) MdItems.inil)) = true ∧
      simpleItems (MdItems.icons (MdItem.item (MdBlocks.bcons (MdBlock.btext "z")
        MdBlocks.bnil)) MdItems.inil) = true ∧
      renderBlock ⟨false, 0⟩
          (MdBlock.blist none
            (MdItems.icons (MdItem.item (MdBlocks.bcons (MdBlock.blist (some 1)
              (MdItems.icons (MdItem.item (MdBlocks.bcons (MdBlock.btext "x")
                MdBlocks.bnil)) (MdItems.icons (MdItem.item (MdBlocks.bcons
                (MdBlock.btext "y") MdBlocks.bnil)) MdItems.inil)))
              MdBlocks.bnil))
              (MdItems.icons (MdItem.item (MdBlocks.bcons (MdBlock.btext "z")
                MdBlocks.bnil)) MdItems.inil)))
        = (⟨true, 3⟩,
            ((" * " ++ lstrip ((numberedFrom 0 (MdItems.icons (MdItem.item
              (MdBlocks.bcons (MdBlock.btext "x") MdBlocks.bnil))
              (MdItems.icons (MdItem.item (MdBlocks.bcons (MdBlock.btext "y")
                MdBlocks.bnil)) MdItems.inil)) ++ "\n") ++ "")) ++
              numberedFrom 2 (MdItems.icons (MdItem.item (MdBlocks.bcons
                (MdBlock.btext "z") MdBlocks.bnil)) MdItems.inil)) ++ "\n") :=
  ⟨by decide, by decide,
    nested_list_flag_leak ⟨false, 0⟩ 1
      (MdItems.icons (MdItem.item (MdBlocks.bcons (MdBlock.btext "x") MdBlocks.bnil))
        (MdItems.icons (MdItem.item (MdBlocks.bcons (MdBlock.btext "y") MdBlocks.bnil))
          MdItems.inil))
      (MdItems.icons (MdItem.item (MdBlocks.bcons (MdBlock.btext "z") MdBlocks.bnil))
        MdItems.inil)
      (by decide) (by decide)⟩

end Consolekit
